import Mathlib

/-!
Verification of the template compiler and extraction runtime of
`src/formatron/formatter.py` (classes `Formatter` and `FormatterBuilder`)
against its natural-language specification.

Strings are embedded as `List Char`.  The collaborating pieces that are not
part of the source file under scrutiny (the `Extractor` classes of
`extractor.py`, Python's `repr`, `str.isidentifier`, `textwrap.dedent`, and
the regex engine used during extraction) are modelled from the specification
or the documented behaviour of the Python standard library; each such
definition carries a doc comment saying so.
-/

namespace Formatron

/-- The decimal digit character for `n % 10`-style values below ten.
Models the rendering of a single digit of Python `str(int)`. -/
def digitChar (n : Nat) : Char :=
  match n with
  | 0 => '0' | 1 => '1' | 2 => '2' | 3 => '3' | 4 => '4'
  | 5 => '5' | 6 => '6' | 7 => '7' | 8 => '8' | _ => '9'

/-- Fuel-driven worker for `decimal`; the fuel only has to dominate the
number of decimal digits, which `n + 1` always does. -/
def decimalAux : Nat → Nat → List Char
  | 0, _ => []
  | fuel + 1, n =>
    if n < 10 then [digitChar n]
    else decimalAux fuel (n / 10) ++ [digitChar (n % 10)]

/-- Python `str(n)` for a natural number: most-significant-first decimal
digits, no leading zeros (and `"0"` for zero). -/
def decimal (n : Nat) : List Char := decimalAux (n + 1) n

/-- One character of Python `repr` of a string: backslashes, quotes, newlines
and tabs are escaped, other characters stand for themselves.  Modelled from
the documented behaviour of Python `repr` on printable ASCII strings that
contain no single-quote character (all strings it is applied to here). -/
def pyReprChar (c : Char) : List Char :=
  if c = '\\' then ['\\', '\\']
  else if c = '\x27' then ['\\', '\x27']
  else if c = '\n' then ['\\', 'n']
  else if c = '\t' then ['\\', 't']
  else [c]

/-- Python `repr` of a string: the escaped body wrapped in single quotes.
Modelled from the documented behaviour of Python `repr` (see `pyReprChar`). -/
def pyRepr (s : List Char) : List Char :=
  '\x27' :: s.flatMap pyReprChar ++ ['\x27']

/-- `sep.join parts` in Python: intercalate the separator. -/
def joinSep (sep : List Char) : List (List Char) → List Char
  | [] => []
  | [x] => x
  | x :: y :: ys => x ++ sep ++ joinSep sep (y :: ys)

/-- ASCII decimal digit test, by code point. -/
def isAsciiDigitC (c : Char) : Bool :=
  48 ≤ c.toNat && c.toNat ≤ 57

/-- First character allowed in a Python identifier (ASCII model):
a letter or an underscore. -/
def identStartC (c : Char) : Bool :=
  (65 ≤ c.toNat && c.toNat ≤ 90) || (97 ≤ c.toNat && c.toNat ≤ 122) || c = '_'

/-- Non-first character allowed in a Python identifier (ASCII model). -/
def identCharC (c : Char) : Bool :=
  identStartC c || isAsciiDigitC c

/-- Python `str.isidentifier`, restricted to ASCII: non-empty, starts with a
letter or underscore, continues with letters, digits or underscores.
Modelled from the documented behaviour of the Python builtin (the source
only ever checks capture names against it). -/
def pyIsIdentifier : List Char → Bool
  | [] => false
  | c :: rest => identStartC c && rest.all identCharC

/-- The Python value universe needed by the capture map: strings and
(arbitrarily nested) lists. -/
inductive PyVal where
  | str (s : List Char)
  | list (vs : List PyVal)

/-- The capture map `Formatter._captures`: a Python dict from capture name to
value, embedded as an insertion-ordered association list. -/
def CapMap := List (List Char × PyVal)

/-- Dict lookup on the capture map. -/
def capLookup : List (List Char × PyVal) → List Char → Option PyVal
  | [], _ => none
  | (k, v) :: rest, key => if k = key then some v else capLookup rest key

/-- Dict assignment on the capture map: update in place if the key exists,
append at the end otherwise (Python dict insertion-order semantics). -/
def capSet : List (List Char × PyVal) → List Char → PyVal → List (List Char × PyVal)
  | [], k, v => [(k, v)]
  | (k', v') :: rest, k, v =>
    if k' = k then (k', v) :: rest else (k', v') :: capSet rest k v

/-- Builder-side model of the `Extractor` objects registered by
`FormatterBuilder` (the classes themselves live in `extractor.py`, which is
not part of the source under scrutiny; this mirrors their constructor
arguments as used in `formatter.py`). -/
inductive MExt where
  | literalE (text : List Char)
  | regexE (pattern : List Char) (cap : Option (List Char)) (nonterminal : List Char)
  | choiceE (subs : List MExt) (cap : Option (List Char)) (nonterminal : List Char)

/-- Modelled from the spec: `kbnf_representation` of an extractor is the
grammar token it contributes — a quoted literal for literal extractors, the
extractor's nonterminal name otherwise (spec, grammar text contract). -/
def kbnfRepr : MExt → List Char
  | .literalE s => pyRepr s
  | .regexE _ _ nt => nt
  | .choiceE _ _ nt => nt

/-- The state of a `FormatterBuilder`: anonymous-nonterminal counter,
`_main_rule`, `_rules`, `_capture_names`, `_nonterminal_to_extractor`,
`_extractors`, and the instance id taken from the class-wide counter. -/
structure FB where
  counter : Nat
  mainRule : List (List Char)
  rules : List (List Char)
  captureNames : List (List Char)
  ntIndex : List (List Char × MExt)
  extractors : List MExt
  instanceId : Nat

/-- `FormatterBuilder.__init__` with a given instance id. -/
def FB.empty (iid : Nat) : FB := ⟨0, [], [], [], [], [], iid⟩

/-- Creation of a new builder instance from the process-wide
`_formatter_builder_counter`: the builder takes the current counter value as
its instance id and the counter is incremented. -/
def newBuilder (globalCounter : Nat) : FB × Nat :=
  (FB.empty globalCounter, globalCounter + 1)

/-- Lookup in `_nonterminal_to_extractor`. -/
def idxLookup : List (List Char × MExt) → List Char → Option MExt
  | [], _ => none
  | (k, v) :: rest, key => if k = key then some v else idxLookup rest key

/-- Dict assignment in `_nonterminal_to_extractor`. -/
def idxSet : List (List Char × MExt) → List Char → MExt → List (List Char × MExt)
  | [], k, v => [(k, v)]
  | (k', v') :: rest, k, v =>
    if k' = k then (k', v) :: rest else (k', v') :: idxSet rest k v

/-- The four extractor-type tags passed as the `name` argument of
`FormatterBuilder._create_nonterminal`. -/
inductive ExtKind where
  | choiceK | regexK | schemaK | strK
deriving DecidableEq

/-- The string each tag contributes to the nonterminal name. -/
def ExtKind.typeName : ExtKind → List Char
  | .choiceK => "choice".data
  | .regexK => "regex".data
  | .schemaK => "schema".data
  | .strK => "str".data

/-- The f-string `f"__\x7bname\x7d_\x7bmid\x7d_\x7bself._instance_id\x7d"` of
`_create_nonterminal`, where `mid` is the capture name (named case) or the
anonymous counter (anonymous case). -/
def mkNonterminal (kind : ExtKind) (mid : List Char) (iid : Nat) : List Char :=
  '_' :: '_' :: (kind.typeName ++ '_' :: (mid ++ '_' :: decimal iid))

/-- Construction-time errors raised by the builder's assertions. -/
inductive BuilderErr where
  | invalidCaptureName (c : List Char)
  | duplicateCaptureName (c : List Char)

/-- `FormatterBuilder._create_nonterminal` together with the checks of
`_assert_capture_name_valid`.  An error carries the builder state at the
moment the assertion fires (Python raises before any mutation here). -/
def createNonterminal (cap : Option (List Char)) (kind : ExtKind) (fb : FB) :
    Except (BuilderErr × FB) (List Char × FB) :=
  match cap with
  | some c =>
    if pyIsIdentifier c then
      if c ∈ fb.captureNames then .error (.duplicateCaptureName c, fb)
      else .ok (mkNonterminal kind c fb.instanceId,
                {fb with captureNames := c :: fb.captureNames})
    else .error (.invalidCaptureName c, fb)
  | none =>
    .ok (mkNonterminal kind (decimal fb.counter) fb.instanceId,
         {fb with counter := fb.counter + 1})

/-- `FormatterBuilder._add_extractor`: derive the nonterminal, register the
extractor in `_nonterminal_to_extractor`, append the rule text to `_rules`,
and return the extractor. -/
def addExtractor (cap : Option (List Char)) (kind : ExtKind)
    (createExt : List Char → MExt) (createRule : List Char → List Char)
    (fb : FB) : Except (BuilderErr × FB) (MExt × FB) :=
  match createNonterminal cap kind fb with
  | .error e => .error e
  | .ok (nt, fb1) =>
    let ext := createExt nt
    .ok (ext, {fb1 with ntIndex := idxSet fb1.ntIndex nt ext,
                        rules := fb1.rules ++ [createRule nt]})

/-- `FormatterBuilder.choose`: string operands become literal extractors,
then the alternation rule is registered through `_add_extractor`. -/
def choose (args : List (Sum (List Char) MExt)) (cap : Option (List Char))
    (fb : FB) : Except (BuilderErr × FB) (MExt × FB) :=
  let newExtractors := args.map (fun a =>
    match a with
    | .inl s => MExt.literalE s
    | .inr e => e)
  addExtractor cap .choiceK
    (fun nt => .choiceE newExtractors cap nt)
    (fun nt => nt ++ " ::= ".data ++
               joinSep " | ".data (newExtractors.map kbnfRepr) ++ [';'])
    fb

/-- `FormatterBuilder.regex`. -/
def regex (pattern : List Char) (cap : Option (List Char)) (fb : FB) :
    Except (BuilderErr × FB) (MExt × FB) :=
  addExtractor cap .regexK
    (fun nt => .regexE pattern cap nt)
    (fun nt => nt ++ " ::= #".data ++ pyRepr pattern ++ [';'])
    fb

/-- `FormatterBuilder.schema`: fragment and extractor construction are
delegated to the external grammar-generator collaborator, here abstracted as
the two function parameters `gen` and `getExt`. -/
def schema (gen : List Char → List Char)
    (getExt : List Char → Option (List Char) → MExt)
    (cap : Option (List Char)) (fb : FB) :
    Except (BuilderErr × FB) (MExt × FB) :=
  addExtractor cap .schemaK (fun nt => getExt nt cap) (fun nt => gen nt) fb

/-- The extraction pattern built by `FormatterBuilder.str` when a stop or
not-contain set is present:
`f".*?(?:\x7b'|'.join(map(repr, stop + not_contain))\x7d)"`. -/
def captureRegexOf (stop notContain : List (List Char)) : List Char :=
  ".*?(?:".data ++ joinSep ['|'] ((stop ++ notContain).map pyRepr) ++ [')']

/-- `FormatterBuilder.str` (the bounded-string combinator). -/
def str (stop notContain : List (List Char)) (cap : Option (List Char))
    (fb : FB) : Except (BuilderErr × FB) (MExt × FB) :=
  match createNonterminal cap .strK fb with
  | .error e => .error e
  | .ok (nt, fb1) =>
    if stop = [] ∧ notContain = [] then
      let ext := MExt.regexE ".*".data cap nt
      .ok (ext, {fb1 with
        rules := fb1.rules ++ [nt ++ " ::= #\x27.*\x27;".data],
        ntIndex := idxSet fb1.ntIndex nt ext})
    else
      let captureRegex := captureRegexOf stop notContain
      let excepted := nt ++ "_excepted".data
      let endPart :=
        if stop ≠ [] then ['('] ++ joinSep ['|'] (stop.map pyRepr) ++ [')']
        else []
      let ntRegex := "except!(".data ++ excepted ++ [')'] ++ endPart
      let ext := MExt.regexE captureRegex cap nt
      .ok (ext, {fb1 with
        rules := fb1.rules ++
          [excepted ++ " ::= ".data ++
             joinSep " | ".data ((stop ++ notContain).map pyRepr) ++ [';'],
           nt ++ " ::= ".data ++ ntRegex ++ [';']],
        ntIndex := idxSet fb1.ntIndex nt ext})

/-- The scanner states of `FormatterBuilder.append_str`. -/
inductive ScanState where
  | normal | escaped | dollar | leftBracket
deriving DecidableEq

/-- Scan-time error: the placeholder name is not a key of
`_nonterminal_to_extractor` (Python raises `KeyError`). -/
inductive ScanErr where
  | unresolved (name : List Char)

/-- The local helper `append_literal(end)` of `append_str`: if the cursor is
strictly before `end`, commit `string[last:end]` as a quoted token of
`_main_rule` and a literal extractor of `_extractors`. -/
def appendLiteral (s : List Char) (last e : Nat) (fb : FB) : FB :=
  if last < e then
    let lit := (s.drop last).take (e - last)
    {fb with mainRule := fb.mainRule ++ [pyRepr lit],
             extractors := fb.extractors ++ [.literalE lit]}
  else fb

/-- The character loop of `append_str` over the remaining characters, with
the full template `s`, the current index `i`, scanner state, literal cursor
`last` and builder state threaded through.  On a `KeyError` the error
carries the builder state at the moment of the raise (the `_main_rule`
append on the line before the failing lookup has already happened). -/
def appendStrGo (s : List Char) : List Char → Nat → ScanState → Nat → FB →
    Except (ScanErr × FB) (Nat × FB)
  | [], _, _, last, fb => .ok (last, fb)
  | c :: rest, i, st, last, fb =>
    if c = '$' then
      appendStrGo s rest (i + 1) (if st ≠ .escaped then .dollar else .normal) last fb
    else if st = .dollar then
      if c = '{' then
        appendStrGo s rest (i + 1) .leftBracket (i + 1) (appendLiteral s last (i - 1) fb)
      else
        appendStrGo s rest (i + 1) .normal last fb
    else if st = .leftBracket then
      if c = '}' then
        let name := (s.drop last).take (i - last)
        let fb1 := {fb with mainRule := fb.mainRule ++ [name]}
        match idxLookup fb1.ntIndex name with
        | none => .error (.unresolved name, fb1)
        | some ext =>
          appendStrGo s rest (i + 1) .normal (i + 1)
            {fb1 with extractors := fb1.extractors ++ [ext]}
      else
        appendStrGo s rest (i + 1) st last fb
    else if c = '\\' then
      appendStrGo s rest (i + 1) .escaped last fb
    else
      appendStrGo s rest (i + 1) .normal last fb

/-- `FormatterBuilder.append_str`: run the scanner over the whole template,
then commit the pending literal text up to the end of the string. -/
def appendStr (s : List Char) (fb : FB) : Except (ScanErr × FB) FB :=
  match appendStrGo s s 0 .normal 0 fb with
  | .error e => .error e
  | .ok (last, fb1) => .ok (appendLiteral s last s.length fb1)

/-- Python `text.split` on the newline character:
`splitLines "a\nb" = ["a", "b"]`, with empty pieces kept. -/
def splitLines : List Char → List (List Char)
  | [] => [[]]
  | c :: rest =>
    if c = '\n' then [] :: splitLines rest
    else
      match splitLines rest with
      | l :: ls => (c :: l) :: ls
      | [] => [[c]]

/-- Space or tab, the whitespace class of `textwrap.dedent`. -/
def isWsChar (c : Char) : Bool := c = ' ' || c = '\t'

/-- `'\n'.join`, the inverse of `splitLines`. -/
def joinLines (ls : List (List Char)) : List Char := joinSep ['\n'] ls

/-- The substitution of `_whitespace_only_re` by the empty string in
`textwrap.dedent`: lines consisting solely of one or more spaces/tabs
become empty. -/
def blankToEmpty (l : List Char) : List Char :=
  if l ≠ [] ∧ l.all isWsChar then [] else l

/-- Whether a line contributes a leading-whitespace match to
`_leading_whitespace_re.findall` (it contains a character that is neither
space nor tab). -/
def hasContent (l : List Char) : Bool := l.any (fun c => !isWsChar c)

/-- The leading run of spaces/tabs of a line. -/
def leadingWs (l : List Char) : List Char := l.takeWhile isWsChar

/-- Longest common prefix of two character lists; the net effect of the
margin-merging loop of `textwrap.dedent`. -/
def commonPrefix : List Char → List Char → List Char
  | a :: as, b :: bs => if a = b then a :: commonPrefix as bs else []
  | _, _ => []

/-- The multiline substitution of the margin at line starts by the empty
string in `textwrap.dedent`, per line: remove the margin where the line
starts with it. -/
def stripMargin (m l : List Char) : List Char :=
  if m.isPrefixOf l then l.drop m.length else l

/-- `textwrap.dedent`, modelled from the CPython standard-library source:
blank (whitespace-only) lines are emptied, the margin is the longest common
leading-whitespace prefix of the remaining lines, and — when non-empty — it
is stripped from every line that starts with it. -/
def dedent (s : List Char) : List Char :=
  let ls := (splitLines s).map blankToEmpty
  match (ls.filter hasContent).map leadingWs with
  | [] => joinLines ls
  | i0 :: rest =>
    let m := rest.foldl commonPrefix i0
    if m = [] then joinLines ls else joinLines (ls.map (stripMargin m))

/-- Python `lines.find` of the newline character followed by the `+ 1` of
`append_multiline_str`: the split point `first + 1`, which is `0` when no
newline occurs (`find` returns `-1`). -/
def multilineCut (s : List Char) : Nat :=
  match s.findIdx? (· = '\n') with
  | some i => i + 1
  | none => 0

/-- The text-preprocessing step of `FormatterBuilder.append_multiline_str`:
`lines[:first + 1] + textwrap.dedent(lines[first + 1:])`. -/
def appendMultilinePre (s : List Char) : List Char :=
  s.take (multilineCut s) ++ dedent (s.drop (multilineCut s))

/-- `FormatterBuilder.append_multiline_str`. -/
def appendMultilineStr (s : List Char) (fb : FB) : Except (ScanErr × FB) FB :=
  appendStr (appendMultilinePre s) fb

/-- The status values of the external engine's `try_accept_new_token`
(kbnf `AcceptTokenResult`). -/
inductive AcceptResult where
  | ongoing | finished | rejected
deriving DecidableEq

/-- Build-time error: `assert len(self._main_rule) != 0`. -/
inductive BuildErr where
  | emptyTemplate
deriving DecidableEq

/-- The state of a `Formatter` (over an abstract engine-state type `σ` and
an extractor representation `α`): extractor list, engine handle, token
buffer, decode callback, grammar text, capture map. -/
structure Fmt (σ α : Type) where
  extractors : List α
  engine : σ
  tokenIds : List Nat
  decode : List Nat → List Char
  grammarStr : List Char
  captures : List (List Char × PyVal)

/-- `FormatterBuilder.build`, instrumented: the second component records the
grammar texts handed to the external engine constructor `mkEngine` (which
closes over the vocabulary and engine configuration).  The emptiness assert
fires before the engine constructor is reached. -/
def build {σ : Type} (fb : FB) (mkEngine : List Char → σ)
    (decode : List Nat → List Char) :
    Except BuildErr (Fmt σ MExt) × List (List Char) :=
  if fb.mainRule = [] then (.error .emptyTemplate, [])
  else
    let rules := fb.rules ++
      ["start ::= ".data ++ joinSep [' '] fb.mainRule ++ [';']]
    let grammarStr := joinSep ['\n'] rules
    (.ok ⟨fb.extractors, mkEngine grammarStr, [], decode, grammarStr, []⟩,
     [grammarStr])

/-- Runtime extractor: a capture name and the `extract` operation, which
consumes a prefix of the text and returns the remainder plus the captured
value.  Modelled from the spec's Extractor contract (`extractor.py` is not
part of the source under scrutiny); extraction is modelled total, i.e. on
the success path of the underlying matcher. -/
structure RExt where
  cap : Option (List Char)
  extract : List Char → List Char × PyVal

/-- `Formatter.on_completion`: iterate the extractors in declaration order
over the decoded output, and for each captured occurrence update the capture
map — an absent name stores the value directly, a present name is replaced
by the two-element list of previous value and new value. -/
def onCompletion : List RExt → List Char → List (List Char × PyVal) →
    List (List Char × PyVal)
  | [], _, caps => caps
  | m :: rest, out, caps =>
    let (out', captured) := m.extract out
    let caps' :=
      match m.cap with
      | none => caps
      | some name =>
        if name = [] then caps
        else
          match capLookup caps name with
          | some prev => capSet caps name (.list [prev, captured])
          | none => capSet caps name captured
    onCompletion rest out' caps'

/-- `Formatter.accept_token`: ask the engine to advance, append the token id
to the buffer unconditionally, and on `Finished` decode the full buffer and
run the extraction pass. -/
def acceptToken {σ : Type} (step : σ → Nat → σ × AcceptResult)
    (f : Fmt σ RExt) (tid : Nat) : Fmt σ RExt × AcceptResult :=
  let p := step f.engine tid
  let f1 := {f with engine := p.1, tokenIds := f.tokenIds ++ [tid]}
  if p.2 = .finished then
    ({f1 with captures := onCompletion f.extractors (f.decode f1.tokenIds) f1.captures},
     p.2)
  else (f1, p.2)

/-- `Formatter.reset`: clear the capture map, reset the engine, clear the
token buffer. -/
def resetF {σ : Type} (resetEngine : σ → σ) (f : Fmt σ RExt) : Fmt σ RExt :=
  {f with captures := [], engine := resetEngine f.engine, tokenIds := []}

/-- Feeding a sequence of token ids through `accept_token`. -/
def acceptAll {σ : Type} (step : σ → Nat → σ × AcceptResult)
    (f : Fmt σ RExt) : List Nat → Fmt σ RExt
  | [] => f
  | t :: ts => acceptAll step (acceptToken step f t).1 ts

/-- Modelled from the spec: extraction of a `LiteralExtractor` — the fixed
string is a prefix of the input, it is consumed, and the captured value is
the literal itself.  The model is total; on a non-matching input (never
reached in the runs below) the input is returned unchanged. -/
def literalRExt (s : List Char) : RExt :=
  ⟨none, fun t => if s.isPrefixOf t then (t.drop s.length, .str s) else (t, .str s)⟩

/-- Modelled from the spec: a `RegexExtractor` whose pattern matches a run
of decimal digits, anchored at the start of the remaining text — the match
is consumed and the matched substring is captured. -/
def digitRunRExt (cap : List Char) : RExt :=
  ⟨some cap,
   fun t => (t.dropWhile Char.isDigit, .str (t.takeWhile Char.isDigit))⟩

/-- Modelled from the spec: the anchored matching semantics of a regex of
the family produced by `FormatterBuilder.str`, a lazy dot-star followed by
an alternation of literal strings.  The result is the shortest prefix that
ends with one of the literals (the dot does not cross a newline), paired
with the remainder, or `none` when no such prefix exists. -/
def lazyMatch (lits : List (List Char)) : List Char →
    Option (List Char × List Char)
  | [] =>
    match lits.find? (fun l => l.isPrefixOf []) with
    | some l => some (l, [])
    | none => none
  | c :: rest =>
    match lits.find? (fun l => l.isPrefixOf (c :: rest)) with
    | some l => some (l, (c :: rest).drop l.length)
    | none =>
      if c = '\n' then none
      else
        match lazyMatch lits rest with
        | some (m, r) => some (c :: m, r)
        | none => none

/-- Observation used to separate structurally different `PyVal`s: the length
of the top-level list (or string). -/
def PyVal.topLen : PyVal → Nat
  | .str s => s.length
  | .list vs => vs.length

/-- The error value produced by a failing capture-name validation: the
identifier check of `_assert_capture_name_valid` fires first, the
duplicate check second. -/
def cnErr (c : List Char) : BuilderErr :=
  if pyIsIdentifier c then .duplicateCaptureName c else .invalidCaptureName c

/-- A run of `_create_nonterminal` calls against a builder: the list of
nonterminal identifiers of the successful declarations, in order (a failed
assertion leaves the builder unchanged, so the run continues from the same
state). -/
def runCN : List (ExtKind × Option (List Char)) → FB → List (List Char)
  | [], _ => []
  | (kind, cap) :: rest, fb =>
    match createNonterminal cap kind fb with
    | .error _ => runCN rest fb
    | .ok (nt, fb1) => nt :: runCN rest fb1

/-- Decimal digit value of a digit character. -/
def digitVal (c : Char) : Nat := c.toNat - 48

/-- Reading a most-significant-first digit string back as a number; the
left inverse of `decimal`. -/
def ofDigits (l : List Char) : Nat :=
  l.foldl (fun a c => 10 * a + digitVal c) 0

/-- A sample extractor registered under nonterminal `x` for the template
counterexamples. -/
def extX : MExt := .regexE ['a'] (some ['x']) ['x']

/-- A builder in which the nonterminal `x` is declared. -/
def fbX : FB := {FB.empty 0 with ntIndex := [(['x'], extX)]}

/-- A builder whose capture-name set already contains `a`. -/
def fbDup : FB := {FB.empty 0 with captureNames := [['a']]}

/-- A fresh formatter over the unit engine with no extractors, used to
instantiate the runtime theorems. -/
def fmt0 : Fmt Unit RExt := ⟨[], (), [], fun _ => [], [], []⟩

/-- A mixed run of named and anonymous declarations, used to instantiate
the uniqueness theorem. -/
def reqsW : List (ExtKind × Option (List Char)) :=
  [(.regexK, some ['a']), (.regexK, none), (.strK, none),
   (.choiceK, some ['b']), (.schemaK, none)]

/-! ### Helper lemmas about decimal rendering and nonterminal names -/

theorem decimalAux_congr : ∀ f g n : Nat, n < f → n < g →
    decimalAux f n = decimalAux g n := by
  intro f
  induction f with
  | zero => intro g n h; omega
  | succ f ih =>
    intro g n hf hg
    cases g with
    | zero => omega
    | succ g =>
      by_cases h10 : n < 10
      · simp [decimalAux, h10]
      · have hd : n / 10 < n := Nat.div_lt_self (by omega) (by omega)
        simp only [decimalAux, if_neg h10]
        rw [ih g (n / 10) (by omega) (by omega)]

theorem decimal_eq (n : Nat) : decimal n =
    if n < 10 then [digitChar n]
    else decimal (n / 10) ++ [digitChar (n % 10)] := by
  by_cases h10 : n < 10
  · simp [decimal, decimalAux, h10]
  · have hd : n / 10 < n := Nat.div_lt_self (by omega) (by omega)
    simp only [decimal, decimalAux, if_neg h10]
    rw [decimalAux_congr n (n / 10 + 1) (n / 10) (by omega) (by omega)]
    rfl

theorem decimal_ne_nil (n : Nat) : decimal n ≠ [] := by
  rw [decimal_eq]
  split <;> simp

theorem isAsciiDigitC_digitChar (n : Nat) : isAsciiDigitC (digitChar n) = true := by
  unfold digitChar
  split <;> decide

theorem mem_decimal_digit (n : Nat) : ∀ c ∈ decimal n, isAsciiDigitC c = true := by
  induction n using Nat.strong_induction_on with
  | _ n ih =>
    intro c hc
    rw [decimal_eq] at hc
    by_cases h10 : n < 10
    · rw [if_pos h10] at hc
      simp only [List.mem_singleton] at hc
      exact hc ▸ isAsciiDigitC_digitChar n
    · rw [if_neg h10] at hc
      rcases List.mem_append.mp hc with h | h
      · exact ih (n / 10) (Nat.div_lt_self (by omega) (by omega)) c h
      · simp only [List.mem_singleton] at h
        exact h ▸ isAsciiDigitC_digitChar (n % 10)

theorem underscore_notMem_decimal (n : Nat) : '_' ∉ decimal n := by
  intro h
  have hd := mem_decimal_digit n '_' h
  simp [isAsciiDigitC] at hd

theorem digitVal_digitChar (n : Nat) (h : n < 10) : digitVal (digitChar n) = n := by
  interval_cases n <;> rfl

theorem ofDigits_append_one (l : List Char) (c : Char) :
    ofDigits (l ++ [c]) = 10 * ofDigits l + digitVal c := by
  simp [ofDigits, List.foldl_append]

theorem ofDigits_decimal : ∀ n : Nat, ofDigits (decimal n) = n := by
  intro n
  induction n using Nat.strong_induction_on with
  | _ n ih =>
    rw [decimal_eq]
    by_cases h10 : n < 10
    · rw [if_pos h10]
      simp [ofDigits, digitVal_digitChar n h10]
    · rw [if_neg h10, ofDigits_append_one,
          ih (n / 10) (Nat.div_lt_self (by omega) (by omega)),
          digitVal_digitChar (n % 10) (by omega)]
      omega

theorem decimal_injective {m n : Nat} (h : decimal m = decimal n) : m = n := by
  have := congrArg ofDigits h
  rwa [ofDigits_decimal, ofDigits_decimal] at this

theorem split_first (sep : Char) : ∀ xs ys as bs : List Char,
    xs ++ sep :: as = ys ++ sep :: bs → sep ∉ xs → sep ∉ ys →
    xs = ys ∧ as = bs := by
  intro xs
  induction xs with
  | nil =>
    intro ys as bs h _ hy
    cases ys with
    | nil => simpa using h
    | cons y ys =>
      simp only [List.nil_append, List.cons_append, List.cons.injEq] at h
      exact absurd (h.1 ▸ List.mem_cons_self y ys) (h.1 ▸ hy)
  | cons x xs ih =>
    intro ys as bs h hx hy
    cases ys with
    | nil =>
      simp only [List.cons_append, List.nil_append, List.cons.injEq] at h
      exact absurd (h.1 ▸ List.mem_cons_self x xs) (h.1 ▸ hx)
    | cons y ys =>
      simp only [List.cons_append, List.cons.injEq] at h
      obtain ⟨rfl, h2⟩ := h
      have hr := ih ys as bs h2
        (fun hm => hx (List.mem_cons_of_mem _ hm))
        (fun hm => hy (List.mem_cons_of_mem _ hm))
      exact ⟨by rw [hr.1], hr.2⟩

theorem split_last (sep : Char) (xs ys as bs : List Char)
    (h : xs ++ sep :: as = ys ++ sep :: bs) (ha : sep ∉ as) (hb : sep ∉ bs) :
    xs = ys ∧ as = bs := by
  have h' : as.reverse ++ sep :: xs.reverse = bs.reverse ++ sep :: ys.reverse := by
    have hr := congrArg List.reverse h
    simpa [List.reverse_append, List.append_assoc] using hr
  have hs := split_first sep as.reverse bs.reverse xs.reverse ys.reverse h'
    (by simpa using ha) (by simpa using hb)
  refine ⟨List.reverse_injective ?_, List.reverse_injective ?_⟩
  · exact hs.2
  · exact hs.1

theorem typeName_no_underscore (k : ExtKind) : '_' ∉ k.typeName := by
  cases k <;> decide

theorem typeName_inj {k1 k2 : ExtKind} (h : k1.typeName = k2.typeName) :
    k1 = k2 := by
  cases k1 <;> cases k2 <;> first | rfl | (exfalso; revert h; decide)

theorem mkNonterminal_inj {k1 k2 : ExtKind} {m1 m2 : List Char} {i1 i2 : Nat}
    (h : mkNonterminal k1 m1 i1 = mkNonterminal k2 m2 i2) :
    k1 = k2 ∧ m1 = m2 ∧ i1 = i2 := by
  unfold mkNonterminal at h
  simp only [List.cons.injEq, true_and] at h
  obtain ⟨hty, hmid⟩ := split_first '_' k1.typeName k2.typeName _ _ h
    (typeName_no_underscore k1) (typeName_no_underscore k2)
  obtain ⟨hm, hdec⟩ := split_last '_' m1 m2 _ _ hmid
    (underscore_notMem_decimal i1) (underscore_notMem_decimal i2)
  exact ⟨typeName_inj hty, hm, decimal_injective hdec⟩

theorem ident_ne_decimal {c : List Char} (h : pyIsIdentifier c = true)
    (n : Nat) : c ≠ decimal n := by
  intro he
  cases c with
  | nil => simp [pyIsIdentifier] at h
  | cons c0 cs =>
    have hm : c0 ∈ decimal n := he ▸ List.mem_cons_self c0 cs
    have hd := mem_decimal_digit n c0 hm
    simp only [pyIsIdentifier, Bool.and_eq_true] at h
    have hs := h.1
    simp only [identStartC, isAsciiDigitC, Bool.or_eq_true, Bool.and_eq_true,
      decide_eq_true_eq] at hs hd
    rcases hs with (hs | hs) | hs
    · omega
    · omega
    · subst hs
      simp at hd

theorem createNonterminal_ok {cap : Option (List Char)} {kind : ExtKind}
    {fb : FB} {nt : List Char} {fb1 : FB}
    (h : createNonterminal cap kind fb = .ok (nt, fb1)) :
    (∃ c, cap = some c ∧ pyIsIdentifier c = true ∧ c ∉ fb.captureNames ∧
       nt = mkNonterminal kind c fb.instanceId ∧
       fb1 = {fb with captureNames := c :: fb.captureNames}) ∨
    (cap = none ∧ nt = mkNonterminal kind (decimal fb.counter) fb.instanceId ∧
       fb1 = {fb with counter := fb.counter + 1}) := by
  cases cap with
  | none =>
    right
    simp only [createNonterminal, Except.ok.injEq, Prod.mk.injEq] at h
    exact ⟨rfl, h.1.symm, h.2.symm⟩
  | some c =>
    left
    by_cases hid : pyIsIdentifier c
    · by_cases hdup : c ∈ fb.captureNames
      · simp [createNonterminal, hid, hdup] at h
      · simp only [createNonterminal, if_pos hid, if_neg hdup,
          Except.ok.injEq, Prod.mk.injEq] at h
        exact ⟨c, rfl, hid, hdup, h.1.symm, h.2.symm⟩
    · simp [createNonterminal, hid] at h

theorem runCN_avoid_named (c : List Char) (hid : pyIsIdentifier c = true) :
    ∀ (reqs : List (ExtKind × Option (List Char))) (fb : FB),
      c ∈ fb.captureNames →
      ∀ nt ∈ runCN reqs fb, ∀ (k : ExtKind) (j : Nat),
        nt ≠ mkNonterminal k c j := by
  intro reqs
  induction reqs with
  | nil => intro fb _ nt hnt; simp [runCN] at hnt
  | cons req rest ih =>
    intro fb hc nt hnt k j
    obtain ⟨kind, cap⟩ := req
    rw [runCN] at hnt
    rcases hm : createNonterminal cap kind fb with e | p
    · rw [hm] at hnt
      exact ih fb hc nt hnt k j
    · obtain ⟨nt0, fb1⟩ := p
      rw [hm] at hnt
      rcases List.mem_cons.mp hnt with rfl | hnt
      · rcases createNonterminal_ok hm with
          ⟨c', _, _, hnin, hnt0, hfb1⟩ | ⟨_, hnt0, hfb1⟩
        · intro he
          obtain ⟨_, hmid, _⟩ := mkNonterminal_inj (hnt0 ▸ he)
          exact hnin (hmid ▸ hc)
        · intro he
          obtain ⟨_, hmid, _⟩ := mkNonterminal_inj (hnt0 ▸ he)
          exact ident_ne_decimal hid fb.counter hmid.symm
      · rcases createNonterminal_ok hm with
          ⟨c', _, _, _, _, hfb1⟩ | ⟨_, _, hfb1⟩
        · exact ih fb1 (hfb1 ▸ List.mem_cons_of_mem c' hc) nt hnt k j
        · exact ih fb1 (hfb1 ▸ hc) nt hnt k j

theorem runCN_avoid_anon (n : Nat) :
    ∀ (reqs : List (ExtKind × Option (List Char))) (fb : FB),
      n < fb.counter →
      ∀ nt ∈ runCN reqs fb, ∀ (k : ExtKind) (j : Nat),
        nt ≠ mkNonterminal k (decimal n) j := by
  intro reqs
  induction reqs with
  | nil => intro fb _ nt hnt; simp [runCN] at hnt
  | cons req rest ih =>
    intro fb hc nt hnt k j
    obtain ⟨kind, cap⟩ := req
    rw [runCN] at hnt
    rcases hm : createNonterminal cap kind fb with e | p
    · rw [hm] at hnt
      exact ih fb hc nt hnt k j
    · obtain ⟨nt0, fb1⟩ := p
      rw [hm] at hnt
      rcases List.mem_cons.mp hnt with rfl | hnt
      · rcases createNonterminal_ok hm with
          ⟨c', _, hid', _, hnt0, hfb1⟩ | ⟨_, hnt0, hfb1⟩
        · intro he
          obtain ⟨_, hmid, _⟩ := mkNonterminal_inj (hnt0 ▸ he)
          exact ident_ne_decimal hid' n hmid
        · intro he
          obtain ⟨_, hmid, _⟩ := mkNonterminal_inj (hnt0 ▸ he)
          have := decimal_injective hmid
          omega
      · rcases createNonterminal_ok hm with
          ⟨c', _, _, _, _, hfb1⟩ | ⟨_, _, hfb1⟩
        · exact ih fb1 (by rw [hfb1]; exact hc) nt hnt k j
        · exact ih fb1 (by rw [hfb1]; simpa using Nat.lt_succ_of_lt hc) nt hnt k j

theorem runCN_pairwise : ∀ (reqs : List (ExtKind × Option (List Char)))
    (fb : FB), (runCN reqs fb).Pairwise (· ≠ ·) := by
  intro reqs
  induction reqs with
  | nil => intro fb; simp [runCN]
  | cons req rest ih =>
    intro fb
    obtain ⟨kind, cap⟩ := req
    rw [runCN]
    rcases hm : createNonterminal cap kind fb with e | p
    · exact ih fb
    · obtain ⟨nt0, fb1⟩ := p
      refine List.Pairwise.cons ?_ (ih fb1)
      intro nt hnt
      rcases createNonterminal_ok hm with
        ⟨c, _, hid, _, hnt0, hfb1⟩ | ⟨_, hnt0, hfb1⟩
      · have := runCN_avoid_named c hid rest fb1
          (hfb1 ▸ List.mem_cons_self c fb.captureNames) nt hnt kind fb.instanceId
        exact fun he => this (he ▸ hnt0 ▸ rfl)
      · have := runCN_avoid_anon fb.counter rest fb1
          (by rw [hfb1]; simp) nt hnt kind fb.instanceId
        exact fun he => this (he ▸ hnt0 ▸ rfl)

theorem runCN_shape : ∀ (reqs : List (ExtKind × Option (List Char)))
    (fb : FB) (nt : List Char), nt ∈ runCN reqs fb →
    ∃ k mid, nt = mkNonterminal k mid fb.instanceId := by
  intro reqs
  induction reqs with
  | nil => intro fb nt hnt; simp [runCN] at hnt
  | cons req rest ih =>
    intro fb nt hnt
    obtain ⟨kind, cap⟩ := req
    rw [runCN] at hnt
    rcases hm : createNonterminal cap kind fb with e | p
    · rw [hm] at hnt
      exact ih fb nt hnt
    · obtain ⟨nt0, fb1⟩ := p
      rw [hm] at hnt
      have hiid : fb1.instanceId = fb.instanceId := by
        rcases createNonterminal_ok hm with ⟨c, _, _, _, _, hfb1⟩ | ⟨_, _, hfb1⟩ <;>
          rw [hfb1]
      rcases List.mem_cons.mp hnt with rfl | hnt
      · rcases createNonterminal_ok hm with ⟨c, _, _, _, hnt0, _⟩ | ⟨_, hnt0, _⟩
        · exact ⟨kind, c, hnt0⟩
        · exact ⟨kind, decimal fb.counter, hnt0⟩
      · obtain ⟨k, mid, hk⟩ := ih fb1 nt hnt
        exact ⟨k, mid, by rw [hk, hiid]⟩

theorem runCN_disjoint {fb1 fb2 : FB} (h : fb1.instanceId ≠ fb2.instanceId)
    (r1 r2 : List (ExtKind × Option (List Char))) :
    ∀ nt ∈ runCN r1 fb1, nt ∉ runCN r2 fb2 := by
  intro nt h1 h2
  obtain ⟨k1, m1, he1⟩ := runCN_shape r1 fb1 nt h1
  obtain ⟨k2, m2, he2⟩ := runCN_shape r2 fb2 nt h2
  exact h (mkNonterminal_inj (he1 ▸ he2)).2.2

theorem appendStrGo_leftBracket (s : List Char) :
    ∀ (chars suffix : List Char) (i last : Nat) (fb : FB),
      (∀ c ∈ chars, c ≠ '$' ∧ c ≠ '}') →
      appendStrGo s (chars ++ suffix) i .leftBracket last fb =
        appendStrGo s suffix (i + chars.length) .leftBracket last fb := by
  intro chars
  induction chars with
  | nil => intro suffix i last fb _; simp
  | cons c cs ih =>
    intro suffix i last fb h
    have hc := h c (List.mem_cons_self c cs)
    have hrest : ∀ c ∈ cs, c ≠ '$' ∧ c ≠ '}' :=
      fun c hm => h c (List.mem_cons_of_mem _ hm)
    simp only [List.cons_append, appendStrGo, List.append_eq]
    rw [if_neg hc.1,
        if_neg (show ¬ (ScanState.leftBracket = ScanState.dollar) by decide),
        if_pos trivial, if_neg hc.2, ih suffix (i + 1) last fb hrest]
    congr 1
    simp only [List.length_cons]
    omega

/-! ### Claim theorems -/

/-- C2, counterexample: the claim says the template backslash-dollar-brace-x-brace
compiles to the literal text dollar-brace-x-brace with the backslash removed.
In fact `append_str` commits the literal WITH the backslash (the escape
suppresses the placeholder but is not consumed): on a builder where `x` is
declared, the committed fragment is the five-character string including the
backslash, which differs from the four-character string the claim predicts. -/
theorem c2_counterexample :
    appendStr ['\\', '$', '{', 'x', '}'] fbX =
      .ok {fbX with mainRule := [pyRepr ['\\', '$', '{', 'x', '}']],
                    extractors := [.literalE ['\\', '$', '{', 'x', '}']]} ∧
    ['\\', '$', '{', 'x', '}'] ≠ ['$', '{', 'x', '}'] :=
  ⟨rfl, by decide⟩

/-- C2, amended: a backslash prevents an immediately following dollar sign
from opening a placeholder, but the backslash is not consumed — it stays in
the literal text.  For every builder state (whether or not `x` is declared),
appending backslash-dollar-brace-x-brace commits exactly one literal
fragment consisting of those five characters, and resolves no placeholder. -/
theorem c2_amended (fb : FB) :
    appendStr ['\\', '$', '{', 'x', '}'] fb =
      .ok {fb with
        mainRule := fb.mainRule ++ [pyRepr ['\\', '$', '{', 'x', '}']],
        extractors := fb.extractors ++ [.literalE ['\\', '$', '{', 'x', '}']]} :=
  rfl

/-- C3, counterexample: the claim says that in dollar state any character
other than an opening brace (hence also a second dollar) drops the scanner
back to normal state and stays literal, which would make the template
dollar-dollar-brace-x-brace one literal fragment.  In fact a second dollar
keeps the scanner in dollar state, so the brace after it opens a
placeholder: the compiled sequence is a one-character literal fragment
followed by the resolved reference `x`, not a single literal. -/
theorem c3_counterexample :
    appendStr ['$', '$', '{', 'x', '}'] fbX =
      .ok {fbX with mainRule := [pyRepr ['$'], ['x']],
                    extractors := [.literalE ['$'], extX]} ∧
    [pyRepr ['$'], ['x']] ≠ [pyRepr ['$', '$', '{', 'x', '}']] :=
  ⟨rfl, by decide⟩

/-- C3, amended: in dollar state an opening brace commits the text before
the dollar as a literal fragment and opens a placeholder; a dollar keeps the
scanner in dollar state (so in a run of dollars only the last one can open a
placeholder and the earlier ones stay literal); any other character drops
back to normal with the dollar and that character kept as literal text; and
a lone trailing dollar is literal text, not an error. -/
theorem c3_amended (fb : FB) (ext : MExt) (c : Char)
    (hx : idxLookup fb.ntIndex ['x'] = some ext)
    (hc1 : c ≠ '{') (hc2 : c ≠ '$') :
    (appendStr ['$', '$', '{', 'x', '}'] fb =
       .ok {fb with mainRule := fb.mainRule ++ [pyRepr ['$'], ['x']],
                    extractors := fb.extractors ++ [.literalE ['$'], ext]}) ∧
    (appendStr ['$', c] fb =
       .ok {fb with mainRule := fb.mainRule ++ [pyRepr ['$', c]],
                    extractors := fb.extractors ++ [.literalE ['$', c]]}) ∧
    (appendStr ['$'] fb =
       .ok {fb with mainRule := fb.mainRule ++ [pyRepr ['$']],
                    extractors := fb.extractors ++ [.literalE ['$']]}) := by
  refine ⟨?_, ?_, ?_⟩
  · simp [appendStr, appendStrGo, appendLiteral, hx, List.append_assoc]
  · simp [appendStr, appendStrGo, appendLiteral, hc1, hc2]
  · simp [appendStr, appendStrGo, appendLiteral]

/-- C3, witness for the amended theorem at the concrete builder `fbX` and
the concrete non-special character `a`. -/
theorem c3_amended_witness :
    (appendStr ['$', '$', '{', 'x', '}'] fbX =
       .ok {fbX with mainRule := [pyRepr ['$'], ['x']],
                     extractors := [.literalE ['$'], extX]}) ∧
    (appendStr ['$', 'a'] fbX =
       .ok {fbX with mainRule := [pyRepr ['$', 'a']],
                     extractors := [.literalE ['$', 'a']]}) ∧
    (appendStr ['$'] fbX =
       .ok {fbX with mainRule := [pyRepr ['$']],
                     extractors := [.literalE ['$']]}) :=
  c3_amended fbX extX 'a' rfl (by decide) (by decide)

/-- C4, counterexample: the claim says an unresolved placeholder reference
leaves the builder state unchanged.  In fact, on the template
dollar-brace-y-brace with `y` undeclared, `append_str` raises the lookup
error only after having appended the token `y` to `_main_rule`: the state
carried by the error differs from the initial state. -/
theorem c4_counterexample :
    appendStr ['$', '{', 'y', '}'] (FB.empty 5) =
      .error (.unresolved ['y'], {FB.empty 5 with mainRule := [['y']]}) ∧
    [['y']] ≠ (FB.empty 5).mainRule :=
  ⟨rfl, by decide⟩

/-- C4, amended: appending a template consisting of a single placeholder
whose name is not in the nonterminal index fails with an
unresolved-reference error, but the builder is not left unchanged: at the
moment of the raise its main-rule sequence has already received the
unresolved name token (the rules, capture names, index and extractor list
are untouched for this template shape). -/
theorem c4_amended (fb : FB) (name : List Char)
    (h1 : '$' ∉ name) (h2 : '}' ∉ name)
    (h3 : idxLookup fb.ntIndex name = none) :
    appendStr ('$' :: '{' :: name ++ ['}']) fb =
      .error (.unresolved name, {fb with mainRule := fb.mainRule ++ [name]}) := by
  have hname : ∀ c ∈ name, c ≠ '$' ∧ c ≠ '}' :=
    fun c hm => ⟨fun he => h1 (he ▸ hm), fun he => h2 (he ▸ hm)⟩
  have hgo := appendStrGo_leftBracket ('$' :: '{' :: name ++ ['}'])
    name ['}'] 2 2 fb hname
  have htake : List.take (2 + name.length - 2)
      (List.drop 2 ('$' :: '{' :: name ++ ['}'])) = name := by
    rw [show (2 : Nat) + name.length - 2 = name.length from by omega]
    exact List.take_left name ['}']
  have hlast : appendStrGo ('$' :: '{' :: name ++ ['}']) ['}'] (2 + name.length)
      .leftBracket 2 fb =
      .error (.unresolved name, {fb with mainRule := fb.mainRule ++ [name]}) := by
    simp [appendStrGo, htake, h3]
  have hpre : appendStr ('$' :: '{' :: name ++ ['}']) fb =
      match appendStrGo ('$' :: '{' :: name ++ ['}']) (name ++ ['}']) 2
        .leftBracket 2 fb with
      | .error e => .error e
      | .ok (last, fb1) =>
        .ok (appendLiteral ('$' :: '{' :: name ++ ['}']) last
          ('$' :: '{' :: name ++ ['}']).length fb1) := rfl
  rw [hpre, hgo, hlast]

/-- C4, witness for the amended theorem at the concrete undeclared name `y`
against a fresh builder. -/
theorem c4_amended_witness :
    appendStr ('$' :: '{' :: ['y'] ++ ['}']) (FB.empty 5) =
      .error (.unresolved ['y'], {FB.empty 5 with mainRule := [['y']]}) :=
  c4_amended (FB.empty 5) ['y'] (by decide) (by decide) rfl

/-- C9, code bug: on an input with no newline at all, `append_multiline_str`
does NOT pass the string through with its leading whitespace intact.
Python `find` returns `-1`, so the preserved prefix is `lines[:0] = ""` and
`textwrap.dedent` is applied to the whole string, stripping the first
line's leading whitespace: the input of two spaces followed by `hello` is
appended as `hello`, against the claim and the method's own docstring. -/
theorem c9_code_bug :
    (∀ fb : FB, appendMultilineStr "  hello".data fb = appendStr "hello".data fb) ∧
    appendMultilinePre "  hello".data = "hello".data ∧
    "hello".data ≠ "  hello".data :=
  ⟨fun _ => rfl, rfl, by decide⟩

/-- C8, code bug: the extraction pattern that `FormatterBuilder.str` builds
for stop string `";"` is the lazy pattern over the PYTHON-REPR of the stop
string — i.e. over the three characters quote, semicolon, quote — because
the source maps `repr` (meant for the grammar text) over the stop strings
inside the regex too.  Matching that pattern against the generated output
`"abc;"` fails (the text contains no quote characters), while the pattern
over the plain stop string `";"` — what the claim and the docstring
describe — matches all of `"abc;"` with zero leftover. -/
theorem c8_code_bug :
    captureRegexOf [[';']] [] = ".*?(?:".data ++ pyRepr [';'] ++ [')'] ∧
    pyRepr [';'] = ['\x27', ';', '\x27'] ∧
    lazyMatch [pyRepr [';']] "abc;".data = none ∧
    lazyMatch [[';']] "abc;".data = some ("abc;".data, []) :=
  ⟨rfl, rfl, rfl, rfl⟩

/-- C1, counterexample: the claim says a capture name already holding a list
gets the new value appended, so that `n ≥ 3` occurrences yield the flat list
of all extracted values.  In fact `on_completion` always replaces the
present value by the two-element list of previous value and new value, so a
third occurrence nests: running the extractor sequence of the template
`x`-dash-`x`-dash-`x` over the output `12-34-56` yields
`[["12", "34"], "56"]`, not the flat `["12", "34", "56"]`. -/
theorem c1_counterexample :
    onCompletion
        [digitRunRExt ['x'], literalRExt ['-'], digitRunRExt ['x'],
         literalRExt ['-'], digitRunRExt ['x']] "12-34-56".data [] =
      [(['x'], .list [.list [.str "12".data, .str "34".data], .str "56".data])] ∧
    PyVal.list [.list [.str "12".data, .str "34".data], .str "56".data] ≠
      PyVal.list [.str "12".data, .str "34".data, .str "56".data] :=
  ⟨rfl, fun h => by
    have hl := congrArg PyVal.topLen h
    simp [PyVal.topLen] at hl⟩

/-- C1, amended: during the extraction pass, a capture whose name is absent
from the map is stored directly, and a capture whose name is present —
whether the present value is a scalar or a list — REPLACES it by the
two-element list of previous value and new value.  Hence two occurrences of
one placeholder aggregate to the flat two-element list (the template
`x`-dash-`x` over `12-34` yields `x = ["12", "34"]`), while each further
occurrence wraps the existing value as the first element of a new pair. -/
theorem c1_amended (caps : List (List Char × PyVal)) (name : List Char)
    (prev captured : PyVal) (out rest : List Char) (more : List RExt)
    (hn : name ≠ []) :
    (capLookup caps name = some prev →
       onCompletion (⟨some name, fun _ => (rest, captured)⟩ :: more) out caps =
         onCompletion more rest (capSet caps name (.list [prev, captured]))) ∧
    (capLookup caps name = none →
       onCompletion (⟨some name, fun _ => (rest, captured)⟩ :: more) out caps =
         onCompletion more rest (capSet caps name captured)) ∧
    onCompletion [digitRunRExt ['x'], literalRExt ['-'], digitRunRExt ['x']]
        "12-34".data [] =
      [(['x'], .list [.str "12".data, .str "34".data])] := by
  refine ⟨?_, ?_, rfl⟩
  · intro h
    simp [onCompletion, hn, h]
  · intro h
    simp [onCompletion, hn, h]

/-- C1, witness for the amended theorem: both update rules applied at
concrete capture maps, with the example completing the conjunction. -/
theorem c1_amended_witness :
    (onCompletion [⟨some ['x'], fun _ => ([], .str ['b'])⟩] [] [(['x'], .str ['a'])] =
       onCompletion [] []
         (capSet [(['x'], .str ['a'])] ['x'] (.list [.str ['a'], .str ['b']]))) ∧
    (onCompletion [⟨some ['x'], fun _ => ([], .str ['b'])⟩] [] [] =
       onCompletion [] [] (capSet [] ['x'] (.str ['b']))) :=
  ⟨(c1_amended [(['x'], .str ['a'])] ['x'] (.str ['a']) (.str ['b']) [] [] []
      (by decide)).1 rfl,
   (c1_amended [] ['x'] (.str ['a']) (.str ['b']) [] [] [] (by decide)).2.1 rfl⟩

theorem createNonterminal_failure (fb : FB) (c : List Char) (kind : ExtKind)
    (h : pyIsIdentifier c = false ∨ c ∈ fb.captureNames) :
    createNonterminal (some c) kind fb = .error (cnErr c, fb) := by
  by_cases hid : pyIsIdentifier c
  · rcases h with h | h
    · rw [hid] at h; cases h
    · simp [createNonterminal, cnErr, hid, h]
  · simp [createNonterminal, cnErr, hid]

/-- C5: when a combinator is called with a capture name that is not a valid
identifier or is already registered, the validation assertion fires before
any mutation: each of `choose`, `regex`, `schema` and the bounded-string
combinator returns the validation error carrying the builder state exactly
as it was before the call — no rule text, extractor, capture name or index
entry has been added. -/
theorem c5_capture_validation_atomic (fb : FB) (c : List Char)
    (h : pyIsIdentifier c = false ∨ c ∈ fb.captureNames) :
    (∀ args, choose args (some c) fb = .error (cnErr c, fb)) ∧
    (∀ pattern, regex pattern (some c) fb = .error (cnErr c, fb)) ∧
    (∀ gen getExt, schema gen getExt (some c) fb = .error (cnErr c, fb)) ∧
    (∀ stop notContain, str stop notContain (some c) fb = .error (cnErr c, fb)) := by
  have hf : ∀ kind, createNonterminal (some c) kind fb = .error (cnErr c, fb) :=
    fun kind => createNonterminal_failure fb c kind h
  refine ⟨fun args => ?_, fun pattern => ?_, fun gen getExt => ?_,
    fun stop notContain => ?_⟩
  · simp [choose, addExtractor, hf]
  · simp [regex, addExtractor, hf]
  · simp [schema, addExtractor, hf]
  · simp [str, hf]

/-- C5, witness: the four combinators rejected on the duplicate capture
name `a` against a builder that already holds it, each leaving the carried
state equal to the initial one. -/
theorem c5_witness :
    choose [] (some ['a']) fbDup = .error (cnErr ['a'], fbDup) ∧
    regex ['p'] (some ['a']) fbDup = .error (cnErr ['a'], fbDup) ∧
    schema (fun _ => []) (fun nt cap => .regexE [] cap nt) (some ['a']) fbDup =
      .error (cnErr ['a'], fbDup) ∧
    str [[';']] [] (some ['a']) fbDup = .error (cnErr ['a'], fbDup) :=
  have h := c5_capture_validation_atomic fbDup ['a'] (Or.inr (by decide))
  ⟨h.1 [], h.2.1 ['p'], h.2.2.1 (fun _ => []) (fun nt cap => .regexE [] cap nt),
   h.2.2.2 [[';']] []⟩

/-- C6: building a builder whose top-level sequence is empty fails with the
empty-template error, and the engine constructor is never reached — the
instrumented trace of grammar texts handed to the engine is empty. -/
theorem c6_build_empty {σ : Type} (fb : FB) (mkEngine : List Char → σ)
    (decode : List Nat → List Char) (h : fb.mainRule = []) :
    build fb mkEngine decode = (.error .emptyTemplate, []) := by
  simp [build, h]

/-- C6, witness: a freshly initialised builder fails to build without
contacting the engine. -/
theorem c6_build_empty_witness :
    build (FB.empty 0) (fun _ => ()) (fun _ => []) =
      (.error .emptyTemplate, []) :=
  c6_build_empty (FB.empty 0) (fun _ => ()) (fun _ => []) rfl

theorem acceptAll_tokenIds {σ : Type} (step : σ → Nat → σ × AcceptResult) :
    ∀ (ids : List Nat) (f : Fmt σ RExt),
      (acceptAll step f ids).tokenIds = f.tokenIds ++ ids := by
  intro ids
  induction ids with
  | nil => intro f; simp [acceptAll]
  | cons t ts ih =>
    intro f
    rw [acceptAll, ih]
    have h1 : (acceptToken step f t).1.tokenIds = f.tokenIds ++ [t] := by
      by_cases h : (step f.engine t).2 = .finished <;> simp [acceptToken, h]
    rw [h1, List.append_assoc]
    rfl

/-- C10: `accept_token` appends the token id to the buffer regardless of the
engine's verdict — in particular also when the verdict is Rejected — and
when the verdict is Finished the capture pass runs over the decode of the
full buffer including the new token; after a reset, feeding a sequence of
ids leaves the buffer containing exactly those ids, so the decoded string
covers every token passed since the last reset. -/
theorem c10_token_buffer {σ : Type} (step : σ → Nat → σ × AcceptResult)
    (f : Fmt σ RExt) (tid : Nat) (resetEngine : σ → σ) (ids : List Nat) :
    ((acceptToken step f tid).1.tokenIds = f.tokenIds ++ [tid]) ∧
    ((step f.engine tid).2 = .rejected →
       (acceptToken step f tid).1.tokenIds = f.tokenIds ++ [tid]) ∧
    ((step f.engine tid).2 = .finished →
       (acceptToken step f tid).1.captures =
         onCompletion f.extractors (f.decode (f.tokenIds ++ [tid])) f.captures) ∧
    ((acceptAll step (resetF resetEngine f) ids).tokenIds = ids) := by
  refine ⟨?_, fun _ => ?_, fun h => ?_, ?_⟩
  · by_cases h : (step f.engine tid).2 = .finished <;> simp [acceptToken, h]
  · by_cases h : (step f.engine tid).2 = .finished <;> simp [acceptToken, h]
  · simp [acceptToken, h]
  · simp [acceptAll_tokenIds, resetF]

/-- C10, witness: a rejecting engine still grows the buffer, a finishing
engine runs the capture pass over the decoded full buffer, and a fresh
cycle after reset holds exactly the new ids. -/
theorem c10_witness :
    ((acceptToken (fun _ _ => ((), .rejected)) fmt0 7).1.tokenIds = [7]) ∧
    ((acceptToken (fun _ _ => ((), .finished)) fmt0 7).1.captures = []) ∧
    ((acceptAll (fun _ _ => ((), .ongoing)) (resetF id fmt0) [1, 2, 3]).tokenIds =
      [1, 2, 3]) :=
  ⟨(c10_token_buffer (fun _ _ => ((), .rejected)) fmt0 7 id []).2.1 rfl,
   (c10_token_buffer (fun _ _ => ((), .finished)) fmt0 7 id []).2.2.1 rfl,
   (c10_token_buffer (fun _ _ => ((), .ongoing)) fmt0 7 id [1, 2, 3]).2.2.2⟩

/-- C7: nonterminal identifiers derived by `_create_nonterminal` are unique.
Within one builder run (any interleaving of named and anonymous
declarations, failed assertions skipped) the produced identifiers are
pairwise distinct; runs of two builders with different instance ids share no
identifier; and the process-wide builder counter hands consecutive builder
instances distinct instance ids. -/
theorem c7_nonterminal_uniqueness (r1 r2 : List (ExtKind × Option (List Char)))
    (fb1 fb2 : FB) (g : Nat) :
    ((runCN r1 fb1).Pairwise (· ≠ ·)) ∧
    (fb1.instanceId ≠ fb2.instanceId →
       ∀ nt ∈ runCN r1 fb1, nt ∉ runCN r2 fb2) ∧
    ((newBuilder g).1.instanceId ≠ (newBuilder (newBuilder g).2).1.instanceId) :=
  ⟨runCN_pairwise r1 fb1,
   fun h => runCN_disjoint h r1 r2,
   by simp [newBuilder, FB.empty]⟩

/-- C7, witness: a mixed run of named and anonymous declarations against two
fresh builders with instance ids 0 and 1 — pairwise distinct identifiers
within the run, no identifier shared across the two builders. -/
theorem c7_witness :
    ((runCN reqsW (FB.empty 0)).Pairwise (· ≠ ·)) ∧
    (∀ nt ∈ runCN reqsW (FB.empty 0), nt ∉ runCN reqsW (FB.empty 1)) :=
  ⟨(c7_nonterminal_uniqueness reqsW reqsW (FB.empty 0) (FB.empty 1) 0).1,
   (c7_nonterminal_uniqueness reqsW reqsW (FB.empty 0) (FB.empty 1) 0).2.1
     (by decide)⟩

end Formatron
